import Mathlib

/-!
Verification development for `src/process_embeddings.py`, the embedding
orchestration script of the voicenotes repository.

The Python source is shallowly embedded below.  External collaborators
(the Supabase store, the OpenAI / Gemini provider clients, the JSON
decoder of the standard library, and the wall clock) are modelled as
explicit oracle parameters:

* the provider call made for a record or chunk at a given retry attempt
  is an oracle `Nat -> Option result` (`none` models a raised exception);
* the store update outcome is an oracle `storeOk : Nat -> Bool`
  (`false` covers both the no-rows-affected response and a raised
  exception, which the source maps to the same `False` return);
* `json.loads` is an explicit `parse` parameter; `jsonLoadsModel` is a
  concrete instance used for closed statements, faithful to `json.loads`
  at the concrete inputs where it is applied;
* sleeps are recorded as lists of durations rather than performed.

Counters and report lists (`self.stats`, `self.skipped_notes`,
`self.error_notes`) are threaded as an explicit `RunState`, extended
with two observability fields: `db_updates` records every real store
update call (dry-run calls are skipped exactly as in the source) and
`dispatched` records the id-list of every chunk handed to the batch
provider path.
-/

namespace VoiceNotes

/-! ### Configuration constants (module-level globals of the script) -/

/-- `BATCH_LIMIT = 50` -/
def BATCH_LIMIT : Nat := 50

/-- `MAX_RETRIES = 3` -/
def MAX_RETRIES : Nat := 3

/-- `MAX_TEXT_LENGTH = 8000` -/
def MAX_TEXT_LENGTH : Nat := 8000

/-- `EXPECTED_VECTOR_DIMENSION = 1536` -/
def EXPECTED_VECTOR_DIMENSION : Nat := 1536

/-- `GEMINI_BATCH_SIZE = 10` -/
def GEMINI_BATCH_SIZE : Nat := 10

/-- An embedding vector.  The float entries never take part in any control
decision of the script, only vector identity and length do, so entries are
modelled as integers. -/
abbrev Vec := List Int

/-! ### Python string helpers -/

/-- ASCII whitespace stripped by Python `str.strip()` (the unicode extras
never occur in the inputs considered here). -/
def isPySpace (c : Char) : Bool :=
  c = ' ' || c = '\t' || c = '\n' || c = '\r' || c = '\x0b' || c = '\x0c'

/-- Python `s.strip()`. -/
def pyStrip (s : String) : String :=
  String.mk (((s.data.dropWhile isPySpace).reverse.dropWhile isPySpace).reverse)

/-- Python `note.get(key) or ""`: both a missing key / `None` and an empty
string collapse to `""`. -/
def getStr (o : Option String) : String :=
  match o with
  | none => ""
  | some s => s

/-- Python `note.get("title") or "Senza titolo"`. -/
def displayTitle (o : Option String) : String :=
  match o with
  | none => "Senza titolo"
  | some s => if s = "" then "Senza titolo" else s

/-! ### Records and the tags field -/

/-- What the tags-handling code observes about a `json.loads` result:
whether it is a Python list (`jlist`, carrying the `str()` rendering of
each element) or any other JSON value (`jother`, which fails the
`isinstance(tags, list)` test and is dropped). -/
inductive JsonVal where
  | jlist (elems : List String)
  | jother
deriving DecidableEq, Repr

/-- The stored tags value: either a serialized string or an already
decoded list (elements rendered via `str()`). -/
inductive TagField where
  | ofString (s : String)
  | ofList (l : List String)
deriving DecidableEq, Repr

/-- A fetched record row: `id, title, excerpt, categories, tags,
transcription` (the columns selected by the STEP 1 query).  `none`
models SQL NULL / a missing key. -/
structure Note where
  id : Nat
  title : Option String
  excerpt : Option String
  categories : Option String
  tags : Option TagField
  transcription : Option String
deriving DecidableEq, Repr

/-! ### A concrete model of `json.loads` for closed statements

`jsonLoadsModel` decodes flat JSON arrays of escape-free string literals
and reports failure (`none`) otherwise.  General theorems quantify over
an arbitrary `parse`; this instance is only applied at concrete inputs
on which it provably agrees with `json.loads`. -/

/-- Drop leading JSON whitespace. -/
def skipWs : List Char → List Char
  | [] => []
  | c :: cs => if c = ' ' || c = '\t' || c = '\n' || c = '\r' then skipWs cs else c :: cs

/-- Read the body of a string literal after the opening quote, up to the
closing quote; escape sequences are out of the modelled fragment. -/
def strLitGo (acc : List Char) : List Char → Option (String × List Char)
  | [] => none
  | c :: cs =>
    if c = '"' then some (String.mk acc.reverse, cs)
    else if c = '\\' then none
    else strLitGo (c :: acc) cs

/-- Read a comma-separated tail of string literals up to `]`. -/
def readItems : Nat → List Char → List String → Option (List String × List Char)
  | 0, _, _ => none
  | n + 1, cs, acc =>
    match skipWs cs with
    | '"' :: rest =>
      match strLitGo [] rest with
      | none => none
      | some (s, rest2) =>
        match skipWs rest2 with
        | ',' :: rest3 => readItems n rest3 (s :: acc)
        | ']' :: rest3 => some ((s :: acc).reverse, rest3)
        | _ => none
    | _ => none

/-- Model of `json.loads`, restricted to flat arrays of strings. -/
def jsonLoadsModel (s : String) : Option JsonVal :=
  match skipWs s.data with
  | '[' :: rest =>
    match skipWs rest with
    | ']' :: rest2 => if skipWs rest2 = [] then some (.jlist []) else none
    | _ =>
      match readItems (rest.length + 1) rest [] with
      | some (items, rest2) => if skipWs rest2 = [] then some (.jlist items) else none
      | none => none
  | _ => none

/-! ### TextAssembler: `_build_text_for_embedding` -/

/-- One optional `"Label: value"` part for a stripped string field:
emitted iff the stripped value is non-empty. -/
def strField (label : String) (o : Option String) : List String :=
  let v := pyStrip (getStr o)
  if v = "" then [] else [label ++ ": " ++ v]

/-- The tags part.  Mirrors the source: a falsy value (`None`, `""`,
`[]`) is skipped; a string is fed to `json.loads`, a decode failure
turns the whole string into a one-element list; a resulting non-empty
list is comma-joined. -/
def tagsParts (parse : String → Option JsonVal) (tags : Option TagField) : List String :=
  match tags with
  | none => []
  | some (.ofString s) =>
    if s = "" then []
    else
      match parse s with
      | none => ["Tags: " ++ String.intercalate ", " [s]]
      | some (.jlist l) =>
        if l.isEmpty then [] else ["Tags: " ++ String.intercalate ", " l]
      | some .jother => []
  | some (.ofList l) =>
    if l.isEmpty then [] else ["Tags: " ++ String.intercalate ", " l]

/-- The `parts` list built by `_build_text_for_embedding`, in source
order: Title, Excerpt, Category, Tags, Content. -/
def partsOf (parse : String → Option JsonVal) (note : Note) : List String :=
  strField "Title" note.title ++
  strField "Excerpt" note.excerpt ++
  strField "Category" note.categories ++
  tagsParts parse note.tags ++
  strField "Content" note.transcription

/-- `_build_text_for_embedding`: `" | ".join(parts)`. -/
def buildTextForEmbedding (parse : String → Option JsonVal) (note : Note) : String :=
  String.intercalate " | " (partsOf parse note)

/-! ### RecordValidator (STEP 3 filter of `process`) -/

/-- The classification of one assembled text. -/
inductive ValidationOutcome where
  | accepted
  | skippedEmpty
  | skippedTooLong (len : Nat)
deriving DecidableEq, Repr

/-- The STEP 3 checks, in source order: `not text.strip()` first, then
`len(text) > MAX_TEXT_LENGTH` (measured on the unstripped text). -/
def classifyText (maxLen : Nat) (text : String) : ValidationOutcome :=
  if pyStrip text = "" then .skippedEmpty
  else if text.length > maxLen then .skippedTooLong text.length
  else .accepted

/-! ### Run statistics and observable state -/

/-- The `self.stats` counter dictionary. -/
structure Stats where
  total_found : Nat
  processed : Nat
  errors : Nat
  skipped_too_long : Nat
  skipped_empty : Nat
  api_calls : Nat
deriving DecidableEq, Repr

/-- One entry of `self.skipped_notes`. -/
structure SkipEntry where
  id : Nat
  title : String
  text_length : Nat
deriving DecidableEq, Repr

/-- One entry of `self.error_notes`. -/
structure ErrEntry where
  id : Nat
  title : String
  error : String
deriving DecidableEq, Repr

/-- The observable mutable state of one run: the counters, the two report
lists, plus two observability fields: `db_updates` records every real
(non-dry-run) store update call issued, `dispatched` records the ids of
every chunk handed to the batch provider path. -/
structure RunState where
  stats : Stats
  skipped_notes : List SkipEntry
  error_notes : List ErrEntry
  db_updates : List (Nat × Vec)
  dispatched : List (List Nat)
deriving DecidableEq, Repr

/-- The error entry appended when single-record generation fails. -/
def genFailEntry (note : Note) : ErrEntry :=
  ⟨note.id, displayTitle note.title, "Generazione embedding fallita"⟩

/-- The error entry appended when a record of a batch has no embedding. -/
def batchFailEntry (note : Note) : ErrEntry :=
  ⟨note.id, displayTitle note.title, "Generazione embedding fallita nel batch"⟩

/-- The error entry appended when the store update fails. -/
def dbFailEntry (note : Note) : ErrEntry :=
  ⟨note.id, displayTitle note.title, "Aggiornamento database fallito"⟩

/-! ### RetryExecutor: `_generate_embedding_with_retry` and
`_generate_embeddings_batch_with_retry`

Both wrappers run the identical attempt loop
`for attempt in range(1, MAX_RETRIES + 1)`; they differ only in the
wrapped operation and the dimension-check it performs on success.  The
loop is embedded once, generically.  The operation is an oracle
`gen : Nat -> Option α` giving the outcome of the provider call at each
attempt number (`none` models a raised exception). -/

/-- Everything observable about one execution of the retry loop. -/
structure RetryOutcome (α : Type) where
  /-- The value returned (`none` models the `return None` failure marker). -/
  result : Option α
  /-- Backoff sleep durations, in order (`2 ** attempt` seconds each). -/
  sleeps : List Nat
  /-- The attempt numbers at which the operation was invoked. -/
  calls : List Nat
  /-- Lengths reported by the dimension-mismatch warning on success. -/
  dimWarnings : List Nat
deriving DecidableEq, Repr

/-- The attempt loop from attempt `a` with `n` attempts remaining
(`n = max - a + 1` on entry from Python's `range(1, max + 1)`).
On success the result is returned at once, after running the
dimension check `warn`; on failure a backoff sleep `2 ^ a` is recorded
if attempts remain, otherwise `none` is returned. -/
def retryGo (warn : α → List Nat) (gen : Nat → Option α) : Nat → Nat → RetryOutcome α
  | _, 0 => ⟨none, [], [], []⟩
  | a, n + 1 =>
    match gen a with
    | some v => ⟨some v, [], [a], warn v⟩
    | none =>
      if n = 0 then ⟨none, [], [a], []⟩
      else
        let r := retryGo warn gen (a + 1) n
        ⟨r.result, 2 ^ a :: r.sleeps, a :: r.calls, r.dimWarnings⟩

/-- The full retry loop, attempts `1 .. maxR`. -/
def executeWithRetry (maxR : Nat) (warn : α → List Nat) (gen : Nat → Option α) :
    RetryOutcome α :=
  retryGo warn gen 1 maxR

/-- The single-record dimension check: one warning when the returned
vector length differs from `EXPECTED_VECTOR_DIMENSION`. -/
def warnSingle (v : Vec) : List Nat :=
  if v.length ≠ EXPECTED_VECTOR_DIMENSION then [v.length] else []

/-- The batch dimension check: one warning per returned vector of
unexpected length (faithful when the provider returns at most as many
vectors as texts, so the warning loop cannot raise an index error). -/
def warnBatch (vs : List Vec) : List Nat :=
  (vs.filter (fun v => v.length ≠ EXPECTED_VECTOR_DIMENSION)).map List.length

/-! ### Persistence: `_update_note_embedding` -/

/-- `_update_note_embedding`.  In dry-run mode it reports success without
touching the store; otherwise it issues one update call (recorded in
`db_updates`) whose confirmation is the oracle `storeOk` (`false` covers
both the empty-data response and a raised exception). -/
def updateNoteEmbedding (dryRun : Bool) (storeOk : Nat → Bool) (id : Nat) (v : Vec)
    (st : RunState) : Bool × RunState :=
  if dryRun then (true, st)
  else (storeOk id, { st with db_updates := st.db_updates ++ [(id, v)] })

/-! ### STEP 3 of `process`: assemble and validate every fetched note -/

/-- The STEP 3 loop: build each note's text, bump the skip counters (and
the skip report list) for rejected notes, and return the accepted
`(note, text)` pairs in input order. -/
def prepareNotes (parse : String → Option JsonVal) (maxLen : Nat) :
    List Note → RunState → RunState × List (Note × String)
  | [], st => (st, [])
  | note :: rest, st =>
    let text := buildTextForEmbedding parse note
    match classifyText maxLen text with
    | .skippedEmpty =>
      prepareNotes parse maxLen rest
        { st with stats := { st.stats with skipped_empty := st.stats.skipped_empty + 1 } }
    | .skippedTooLong n =>
      prepareNotes parse maxLen rest
        { st with
          stats := { st.stats with skipped_too_long := st.stats.skipped_too_long + 1 }
          skipped_notes := st.skipped_notes ++ [⟨note.id, displayTitle note.title, n⟩] }
    | .accepted =>
      let r := prepareNotes parse maxLen rest st
      (r.1, (note, text) :: r.2)

/-! ### Single-record processing: `_process_notes_single`

The generation oracle `genS i a` is the outcome of the provider call for
the `i`-th accepted record at attempt `a`.  `api_calls` is incremented
by the source only after a provider call returns, hence exactly once
per record whose generation eventually succeeds and never for a record
whose every attempt raises.  The fixed inter-call delay has no
observable effect on the state and is not recorded. -/

def processNotesSingleGo (maxR : Nat) (dryRun : Bool) (storeOk : Nat → Bool)
    (genS : Nat → Nat → Option Vec) :
    Nat → List (Note × String) → RunState → RunState
  | _, [], st => st
  | idx, (note, _) :: rest, st =>
    let r := executeWithRetry maxR warnSingle (genS idx)
    match r.result with
    | none =>
      processNotesSingleGo maxR dryRun storeOk genS (idx + 1) rest
        { st with
          stats := { st.stats with errors := st.stats.errors + 1 }
          error_notes := st.error_notes ++ [genFailEntry note] }
    | some v =>
      let st1 := { st with stats := { st.stats with api_calls := st.stats.api_calls + 1 } }
      let p := updateNoteEmbedding dryRun storeOk note.id v st1
      let st2 :=
        if p.1 then
          { p.2 with stats := { p.2.stats with processed := p.2.stats.processed + 1 } }
        else
          { p.2 with
            stats := { p.2.stats with errors := p.2.stats.errors + 1 }
            error_notes := p.2.error_notes ++ [dbFailEntry note] }
      processNotesSingleGo maxR dryRun storeOk genS (idx + 1) rest st2

/-! ### Batch processing: `_process_notes_batch` -/

/-- The per-chunk result table `dict(zip(note_ids, embeddings))` on
success, and the all-`None` dictionary on terminal failure (whose
lookups behave exactly like lookups in the empty table).  `List.lookup`
agrees with the Python dictionary lookup whenever the chunk ids are
distinct. -/
def chunkTable (chunk : List (Note × String)) : Option (List Vec) → List (Nat × Vec)
  | none => []
  | some vs => (chunk.map (fun p => p.1.id)).zip vs

/-- The per-note update loop run over one chunk after its batch call. -/
def processChunkNotes (dryRun : Bool) (storeOk : Nat → Bool) (tbl : List (Nat × Vec)) :
    List (Note × String) → RunState → RunState
  | [], st => st
  | (note, _) :: rest, st =>
    match tbl.lookup note.id with
    | none =>
      processChunkNotes dryRun storeOk tbl rest
        { st with
          stats := { st.stats with errors := st.stats.errors + 1 }
          error_notes := st.error_notes ++ [batchFailEntry note] }
    | some v =>
      let p := updateNoteEmbedding dryRun storeOk note.id v st
      let st2 :=
        if p.1 then
          { p.2 with stats := { p.2.stats with processed := p.2.stats.processed + 1 } }
        else
          { p.2 with
            stats := { p.2.stats with errors := p.2.stats.errors + 1 }
            error_notes := p.2.error_notes ++ [dbFailEntry note] }
      processChunkNotes dryRun storeOk tbl rest st2

/-- The chunking loop `for batch_start in range(0, total, C)` of
`_process_notes_batch`, written with an explicit fuel so that it is
structurally recursive and evaluates by `decide`.  For `C >= 1` every
iteration consumes at least one record, so `fuel = valid.length`
(supplied by `processNotesBatch`) always suffices and the fuel-zero
branch is never reached; `C = 0` would make the Python `range` raise,
so all theorems assume `0 < C`.  `genB i a` is the outcome of the
batch provider call for the `i`-th chunk at attempt `a`; a successful
call increments `api_calls` exactly once. -/
def processNotesBatchGo (maxR C : Nat) (dryRun : Bool) (storeOk : Nat → Bool)
    (genB : Nat → Nat → Option (List Vec)) :
    Nat → Nat → List (Note × String) → RunState → RunState
  | 0, _, _, st => st
  | _ + 1, _, [], st => st
  | fuel + 1, i, nt :: rest0, st =>
    let chunk := (nt :: rest0).take C
    let r := executeWithRetry maxR warnBatch (genB i)
    let st1 :=
      match r.result with
      | some _ => { st with stats := { st.stats with api_calls := st.stats.api_calls + 1 } }
      | none => st
    let st2 := { st1 with dispatched := st1.dispatched ++ [chunk.map (fun p => p.1.id)] }
    let st3 := processChunkNotes dryRun storeOk (chunkTable chunk r.result) chunk st2
    processNotesBatchGo maxR C dryRun storeOk genB fuel (i + 1) ((nt :: rest0).drop C) st3

/-- `_process_notes_batch`. -/
def processNotesBatch (maxR C : Nat) (dryRun : Bool) (storeOk : Nat → Bool)
    (genB : Nat → Nat → Option (List Vec)) (valid : List (Note × String))
    (st : RunState) : RunState :=
  processNotesBatchGo maxR C dryRun storeOk genB valid.length 0 valid st

/-! ### The chunk partition induced by `range(0, total, C)` slicing -/

/-- Fuel-driven chunking: `l[0:C], l[C:2C], ...`. -/
def chunksOfGo (C : Nat) : Nat → List α → List (List α)
  | 0, _ => []
  | _ + 1, [] => []
  | fuel + 1, x :: xs => (x :: xs).take C :: chunksOfGo C fuel ((x :: xs).drop C)

/-- The list of slices `l[i:i+C]` for `i in range(0, len(l), C)`. -/
def chunksOf (C : Nat) (l : List α) : List (List α) :=
  if C = 0 then [] else chunksOfGo C l.length l

/-! ### Orchestrator: `process` -/

/-- The state at the start of `process`: all counters zero except
`total_found`, which STEP 1 sets to the number of fetched rows. -/
def initialState (found : Nat) : RunState :=
  ⟨⟨found, 0, 0, 0, 0, 0⟩, [], [], [], []⟩

/-- `process`, from the point where STEP 1 has fetched `notes`:
set `total_found`, return early when nothing was fetched (the STEP 2
best-effort count query touches no state and is omitted), run the
STEP 3 validation, return early when nothing was accepted, then run the
batch or the single path.  The report step only reads the state. -/
def runProcess (parse : String → Option JsonVal) (maxLen maxR C : Nat)
    (dryRun supportsBatch : Bool) (storeOk : Nat → Bool)
    (genS : Nat → Nat → Option Vec) (genB : Nat → Nat → Option (List Vec))
    (notes : List Note) : RunState :=
  let st0 := initialState notes.length
  match notes with
  | [] => st0
  | _ :: _ =>
    let r := prepareNotes parse maxLen notes st0
    match r.2 with
    | [] => r.1
    | _ :: _ =>
      if supportsBatch then processNotesBatch maxR C dryRun storeOk genB r.2 r.1
      else processNotesSingleGo maxR dryRun storeOk genS 0 r.2 r.1

/-! ## Helper lemmas about the retry loop -/

theorem retryGo_succ_some {α : Type} (warn : α → List Nat) (gen : Nat → Option α)
    (a n : Nat) (v : α) (h : gen a = some v) :
    retryGo warn gen a (n + 1) = ⟨some v, [], [a], warn v⟩ := by
  simp only [retryGo, h]

theorem retryGo_one_none {α : Type} (warn : α → List Nat) (gen : Nat → Option α)
    (a : Nat) (h : gen a = none) :
    retryGo warn gen a 1 = ⟨none, [], [a], []⟩ := by
  simp [retryGo, h]

theorem retryGo_succ_none {α : Type} (warn : α → List Nat) (gen : Nat → Option α)
    (a n : Nat) (h : gen a = none) (hn : n ≠ 0) :
    retryGo warn gen a (n + 1) =
      ⟨(retryGo warn gen (a + 1) n).result,
       2 ^ a :: (retryGo warn gen (a + 1) n).sleeps,
       a :: (retryGo warn gen (a + 1) n).calls,
       (retryGo warn gen (a + 1) n).dimWarnings⟩ := by
  simp only [retryGo, h, hn, if_false]

theorem retryGo_all_fail {α : Type} (warn : α → List Nat) (gen : Nat → Option α) :
    ∀ n a, (∀ i, i < n → gen (a + i) = none) →
      retryGo warn gen a n =
        ⟨none, (List.range' a (n - 1)).map (2 ^ ·), List.range' a n, []⟩ := by
  intro n
  induction n with
  | zero => intro a _; rfl
  | succ m ih =>
    intro a h
    have h0 : gen a = none := by simpa using h 0 (Nat.succ_pos m)
    cases m with
    | zero => rw [retryGo_one_none warn gen a h0]; simp [List.range']
    | succ k =>
      have hrec := ih (a + 1) (fun i hi => by
        have e : a + 1 + i = a + (i + 1) := by omega
        rw [e]; exact h (i + 1) (by omega))
      rw [retryGo_succ_none warn gen a (k + 1) h0 (by omega), hrec]
      simp [List.range']

theorem retryGo_succeeds {α : Type} (warn : α → List Nat) (gen : Nat → Option α) (v : α) :
    ∀ k n a, k < n → (∀ i, i < k → gen (a + i) = none) → gen (a + k) = some v →
      retryGo warn gen a n =
        ⟨some v, (List.range' a k).map (2 ^ ·), List.range' a (k + 1), warn v⟩ := by
  intro k
  induction k with
  | zero =>
    intro n a hk _ hs
    cases n with
    | zero => omega
    | succ m =>
      have hs' : gen a = some v := by simpa using hs
      simp [retryGo, hs', List.range']
  | succ k ih =>
    intro n a hk h hs
    cases n with
    | zero => omega
    | succ m =>
      have h0 : gen a = none := by simpa using h 0 (Nat.succ_pos k)
      have hm : m ≠ 0 := by omega
      have hrec := ih m (a + 1) (by omega)
        (fun i hi => by
          have e : a + 1 + i = a + (i + 1) := by omega
          rw [e]; exact h (i + 1) (by omega))
        (by have e : a + 1 + k = a + (k + 1) := by omega
            rw [e]; exact hs)
      simp only [retryGo, h0, hm, if_false, hrec]
      simp [List.range']

theorem executeWithRetry_all_fail {α : Type} (maxR : Nat) (warn : α → List Nat)
    (gen : Nat → Option α) (h : ∀ a, 1 ≤ a → a ≤ maxR → gen a = none) :
    executeWithRetry maxR warn gen =
      ⟨none, (List.range' 1 (maxR - 1)).map (2 ^ ·), List.range' 1 maxR, []⟩ :=
  retryGo_all_fail warn gen maxR 1 (fun i hi => h (1 + i) (by omega) (by omega))

theorem executeWithRetry_succeeds {α : Type} (maxR k : Nat) (warn : α → List Nat)
    (gen : Nat → Option α) (v : α) (hk : k + 1 ≤ maxR)
    (hfail : ∀ a, 1 ≤ a → a ≤ k → gen a = none) (hsucc : gen (k + 1) = some v) :
    executeWithRetry maxR warn gen =
      ⟨some v, (List.range' 1 k).map (2 ^ ·), List.range' 1 (k + 1), warn v⟩ :=
  retryGo_succeeds warn gen v k maxR 1 (by omega)
    (fun i hi => hfail (1 + i) (by omega) (by omega))
    (by have e : 1 + k = k + 1 := by omega
        rw [e]; exact hsucc)

theorem executeWithRetry_first_attempt {α : Type} (maxR : Nat) (warn : α → List Nat)
    (gen : Nat → Option α) (v : α) (hmax : 0 < maxR) (h1 : gen 1 = some v) :
    executeWithRetry maxR warn gen = ⟨some v, [], [1], warn v⟩ := by
  have h := executeWithRetry_succeeds maxR 0 warn gen v (by omega)
    (fun a h1 h2 => by omega) h1
  simpa [List.range'] using h

/-! ## Helper lemmas about the chunk partition -/

theorem chunksOf_nil (C : Nat) : chunksOf C ([] : List α) = [] := by
  unfold chunksOf
  split <;> rfl

theorem chunksOfGo_congr (C : Nat) (hC : 0 < C) :
    ∀ f₁ f₂ (l : List α), l.length ≤ f₁ → l.length ≤ f₂ →
      chunksOfGo C f₁ l = chunksOfGo C f₂ l := by
  intro f₁
  induction f₁ with
  | zero =>
    intro f₂ l h1 _
    have : l = [] := List.eq_nil_of_length_eq_zero (Nat.le_zero.mp h1)
    subst this
    cases f₂ <;> rfl
  | succ m ih =>
    intro f₂ l h1 h2
    cases l with
    | nil => cases f₂ <;> rfl
    | cons x xs =>
      cases f₂ with
      | zero => simp at h2
      | succ m2 =>
        simp only [chunksOfGo]
        congr 1
        apply ih
        · rw [List.length_drop]
          simp only [List.length_cons] at h1 ⊢
          omega
        · rw [List.length_drop]
          simp only [List.length_cons] at h2 ⊢
          omega

theorem chunksOf_cons (C : Nat) (hC : 0 < C) (l : List α) (hl : l ≠ []) :
    chunksOf C l = l.take C :: chunksOf C (l.drop C) := by
  obtain ⟨x, xs, rfl⟩ := List.exists_cons_of_ne_nil hl
  unfold chunksOf
  rw [if_neg (by omega), if_neg (by omega)]
  simp only [List.length_cons, chunksOfGo]
  congr 1
  apply chunksOfGo_congr C hC
  · rw [List.length_drop]
    simp only [List.length_cons]
    omega
  · exact le_rfl

theorem chunksOf_flatten (C : Nat) (hC : 0 < C) (l : List α) :
    (chunksOf C l).flatten = l := by
  have H : ∀ n (l : List α), l.length ≤ n → (chunksOf C l).flatten = l := by
    intro n
    induction n with
    | zero =>
      intro l hl
      have : l = [] := List.eq_nil_of_length_eq_zero (Nat.le_zero.mp hl)
      simp [this, chunksOf_nil]
    | succ m ih =>
      intro l hl
      rcases eq_or_ne l [] with rfl | hne
      · simp [chunksOf_nil]
      · rw [chunksOf_cons C hC l hne]
        have hlen : (l.drop C).length ≤ m := by
          rw [List.length_drop]
          have h2 : 1 ≤ l.length := List.length_pos.mpr hne
          omega
        simp only [List.flatten_cons, ih (l.drop C) hlen]
        exact List.take_append_drop C l
  exact H l.length l le_rfl

theorem chunksOf_length (C : Nat) (hC : 0 < C) (l : List α) :
    (chunksOf C l).length = (l.length + C - 1) / C := by
  have H : ∀ n (l : List α), l.length ≤ n →
      (chunksOf C l).length = (l.length + C - 1) / C := by
    intro n
    induction n with
    | zero =>
      intro l hl
      have : l = [] := List.eq_nil_of_length_eq_zero (Nat.le_zero.mp hl)
      subst this
      rw [chunksOf_nil]
      simp only [List.length_nil]
      symm
      exact Nat.div_eq_of_lt (by omega)
    | succ m ih =>
      intro l hl
      rcases eq_or_ne l [] with rfl | hne
      · rw [chunksOf_nil]
        simp only [List.length_nil]
        symm
        exact Nat.div_eq_of_lt (by omega)
      · have hpos : 1 ≤ l.length := List.length_pos.mpr hne
        have hlen : (l.drop C).length ≤ m := by
          rw [List.length_drop]
          omega
        rw [chunksOf_cons C hC l hne, List.length_cons, ih (l.drop C) hlen,
          List.length_drop]
        rcases Nat.lt_or_ge C l.length with hgt | hle
        · have e1 : l.length - C + C - 1 = (l.length - C - 1) + C := by omega
          have e2 : l.length + C - 1 = ((l.length - C - 1) + C) + C := by omega
          rw [e1, e2, Nat.add_div_right _ hC, Nat.add_div_right _ hC,
            Nat.add_div_right _ hC]
        · have e1 : l.length - C = 0 := by omega
          have e2 : l.length + C - 1 = (l.length - 1) + C := by omega
          rw [e1, e2, Nat.add_div_right _ hC,
            Nat.div_eq_of_lt (show 0 + C - 1 < C by omega),
            Nat.div_eq_of_lt (show l.length - 1 < C by omega)]
  exact H l.length l le_rfl

theorem chunksOf_mem_sizes (C : Nat) (hC : 0 < C) (l : List α) :
    ∀ c ∈ chunksOf C l, c ≠ [] ∧ c.length ≤ C := by
  have H : ∀ n (l : List α), l.length ≤ n →
      ∀ c ∈ chunksOf C l, c ≠ [] ∧ c.length ≤ C := by
    intro n
    induction n with
    | zero =>
      intro l hl
      have : l = [] := List.eq_nil_of_length_eq_zero (Nat.le_zero.mp hl)
      simp [this, chunksOf_nil]
    | succ m ih =>
      intro l hl c hc
      rcases eq_or_ne l [] with rfl | hne
      · simp [chunksOf_nil] at hc
      · rw [chunksOf_cons C hC l hne] at hc
        rcases List.mem_cons.mp hc with rfl | hmem
        · constructor
          · obtain ⟨x, xs, rfl⟩ := List.exists_cons_of_ne_nil hne
            cases C with
            | zero => omega
            | succ k => simp [List.take]
          · simp [List.length_take]
        · exact ih (l.drop C)
            (by rw [List.length_drop]
                have := List.length_pos.mpr hne
                omega) c hmem
  exact H l.length l le_rfl

theorem chunksOf_dropLast_sizes (C : Nat) (hC : 0 < C) (l : List α) :
    ∀ c ∈ (chunksOf C l).dropLast, c.length = C := by
  have H : ∀ n (l : List α), l.length ≤ n →
      ∀ c ∈ (chunksOf C l).dropLast, c.length = C := by
    intro n
    induction n with
    | zero =>
      intro l hl
      have : l = [] := List.eq_nil_of_length_eq_zero (Nat.le_zero.mp hl)
      simp [this, chunksOf_nil]
    | succ m ih =>
      intro l hl c hc
      rcases eq_or_ne l [] with rfl | hne
      · simp [chunksOf_nil] at hc
      · rw [chunksOf_cons C hC l hne] at hc
        rcases eq_or_ne (l.drop C) [] with hdrop | hdrop
        · rw [hdrop, chunksOf_nil] at hc
          simp at hc
        · rw [chunksOf_cons C hC _ hdrop] at hc
          simp only [List.dropLast_cons₂, List.mem_cons] at hc
          rcases hc with rfl | hmem
          · have hgt : C < l.length := by
              have h2 := List.length_pos.mpr hdrop
              rw [List.length_drop] at h2
              omega
            simp [List.length_take]
            omega
          · have hlen : (l.drop C).length ≤ m := by
              rw [List.length_drop]
              have := List.length_pos.mpr hne
              omega
            have := ih (l.drop C) hlen c
            rw [chunksOf_cons C hC _ hdrop] at this
            exact this hmem
  exact H l.length l le_rfl

theorem chunksOf_last_length (C : Nat) (hC : 0 < C) (l : List α) (hl : l ≠ []) :
    ∃ c, (chunksOf C l).getLast? = some c ∧
      c.length = (if l.length % C = 0 then C else l.length % C) := by
  have H : ∀ n (l : List α), l.length ≤ n → l ≠ [] →
      ∃ c, (chunksOf C l).getLast? = some c ∧
        c.length = (if l.length % C = 0 then C else l.length % C) := by
    intro n
    induction n with
    | zero =>
      intro l hl hne
      have : l = [] := List.eq_nil_of_length_eq_zero (Nat.le_zero.mp hl)
      exact absurd this hne
    | succ m ih =>
      intro l hl hne
      have hpos : 1 ≤ l.length := List.length_pos.mpr hne
      rw [chunksOf_cons C hC l hne]
      rcases eq_or_ne (l.drop C) [] with hdrop | hdrop
      · have hle : l.length ≤ C := by
          have h0 : (l.drop C).length = 0 := by rw [hdrop]; rfl
          rw [List.length_drop] at h0
          omega
        refine ⟨l.take C, ?_, ?_⟩
        · rw [hdrop, chunksOf_nil]; rfl
        · rw [List.length_take, Nat.min_eq_right hle]
          rcases Nat.lt_or_ge l.length C with hlt | hge
          · rw [if_neg (by rw [Nat.mod_eq_of_lt hlt]; omega), Nat.mod_eq_of_lt hlt]
          · have : l.length = C := by omega
            simp [this]
      · have hlen : (l.drop C).length ≤ m := by
          rw [List.length_drop]
          omega
        obtain ⟨c, hc1, hc2⟩ := ih (l.drop C) hlen hdrop
        refine ⟨c, ?_, ?_⟩
        · rw [List.getLast?_cons]
          rcases hcc : chunksOf C (l.drop C) with _ | ⟨r, rs⟩
          · rw [hcc, List.getLast?_nil] at hc1; cases hc1
          · rw [hcc] at hc1
            simp [hc1]
        · have hmod : (l.drop C).length % C = l.length % C := by
            rw [List.length_drop]
            have hge : C ≤ l.length := by
              have h2 := List.length_pos.mpr hdrop
              rw [List.length_drop] at h2
              omega
            conv_rhs => rw [show l.length = (l.length - C) + C by omega]
            rw [Nat.add_mod_right]
          rw [hc2, hmod]
  exact H l.length l le_rfl hl

/-! ## Helper lemmas about the per-chunk update loop -/

theorem processChunkNotes_preserved (dryRun : Bool) (storeOk : Nat → Bool)
    (tbl : List (Nat × Vec)) :
    ∀ chunk st,
      ((processChunkNotes dryRun storeOk tbl chunk st).stats.api_calls = st.stats.api_calls) ∧
      ((processChunkNotes dryRun storeOk tbl chunk st).stats.total_found = st.stats.total_found) ∧
      ((processChunkNotes dryRun storeOk tbl chunk st).stats.skipped_empty = st.stats.skipped_empty) ∧
      ((processChunkNotes dryRun storeOk tbl chunk st).stats.skipped_too_long = st.stats.skipped_too_long) ∧
      ((processChunkNotes dryRun storeOk tbl chunk st).skipped_notes = st.skipped_notes) ∧
      ((processChunkNotes dryRun storeOk tbl chunk st).dispatched = st.dispatched) := by
  intro chunk
  induction chunk with
  | nil => intro st; exact ⟨rfl, rfl, rfl, rfl, rfl, rfl⟩
  | cons hd rest ih =>
    intro st
    obtain ⟨note, text⟩ := hd
    simp only [processChunkNotes, updateNoteEmbedding]
    cases h : tbl.lookup note.id with
    | none => exact ih _
    | some v =>
      cases dryRun with
      | true =>
        simp only [eq_self_iff_true, if_true]
        exact ih _
      | false =>
        simp only [Bool.false_eq_true, if_false]
        split
        · exact ih _
        · exact ih _

theorem processChunkNotes_sum (dryRun : Bool) (storeOk : Nat → Bool)
    (tbl : List (Nat × Vec)) :
    ∀ chunk st,
      (processChunkNotes dryRun storeOk tbl chunk st).stats.processed +
        (processChunkNotes dryRun storeOk tbl chunk st).stats.errors =
      st.stats.processed + st.stats.errors + chunk.length := by
  intro chunk
  induction chunk with
  | nil => intro st; simp [processChunkNotes]
  | cons hd rest ih =>
    intro st
    obtain ⟨note, text⟩ := hd
    simp only [processChunkNotes, updateNoteEmbedding, List.length_cons]
    cases h : tbl.lookup note.id with
    | none =>
      rw [ih]
      dsimp only
      omega
    | some v =>
      cases dryRun with
      | true =>
        simp only [eq_self_iff_true, if_true]
        rw [ih]
        dsimp only
        omega
      | false =>
        simp only [Bool.false_eq_true, if_false]
        split
        · rw [ih]; dsimp only; omega
        · rw [ih]; dsimp only; omega

theorem processChunkNotes_empty_tbl (dryRun : Bool) (storeOk : Nat → Bool) :
    ∀ chunk st, processChunkNotes dryRun storeOk [] chunk st =
      { st with
        stats := { st.stats with errors := st.stats.errors + chunk.length }
        error_notes := st.error_notes ++ chunk.map (fun p => batchFailEntry p.1) } := by
  intro chunk
  induction chunk with
  | nil =>
    intro st
    simp [processChunkNotes]
  | cons hd rest ih =>
    intro st
    obtain ⟨note, text⟩ := hd
    simp only [processChunkNotes, List.lookup_nil]
    rw [ih]
    simp only [List.length_cons, List.map_cons]
    congr 1
    · congr 1
      omega
    · simp

theorem processChunkNotes_dry_db (storeOk : Nat → Bool) (tbl : List (Nat × Vec)) :
    ∀ chunk st,
      (processChunkNotes true storeOk tbl chunk st).db_updates = st.db_updates := by
  intro chunk
  induction chunk with
  | nil => intro st; rfl
  | cons hd rest ih =>
    intro st
    obtain ⟨note, text⟩ := hd
    simp only [processChunkNotes, updateNoteEmbedding]
    cases h : tbl.lookup note.id with
    | none => exact ih _
    | some v => exact ih _

/-! ## Helper lemmas about the batch driver loop -/

theorem processNotesBatchGo_dispatched (maxR C : Nat) (dryRun : Bool)
    (storeOk : Nat → Bool) (genB : Nat → Nat → Option (List Vec)) (hC : 0 < C) :
    ∀ fuel (valid : List (Note × String)) i st, valid.length ≤ fuel →
      (processNotesBatchGo maxR C dryRun storeOk genB fuel i valid st).dispatched =
        st.dispatched ++ (chunksOf C valid).map (List.map (fun p => p.1.id)) := by
  intro fuel
  induction fuel with
  | zero =>
    intro valid i st h
    have : valid = [] := List.eq_nil_of_length_eq_zero (Nat.le_zero.mp h)
    subst this
    simp [processNotesBatchGo, chunksOf_nil]
  | succ f ih =>
    intro valid i st h
    cases valid with
    | nil => simp [processNotesBatchGo, chunksOf_nil]
    | cons nt rest0 =>
      simp only [processNotesBatchGo]
      have hdrop : ((nt :: rest0).drop C).length ≤ f := by
        rw [List.length_drop]
        simp only [List.length_cons] at h ⊢
        omega
      rw [ih _ (i + 1) _ hdrop,
        (processChunkNotes_preserved dryRun storeOk _ _ _).2.2.2.2.2,
        chunksOf_cons C hC (nt :: rest0) (by simp)]
      cases hres : (executeWithRetry maxR warnBatch (genB i)).result with
      | none => simp
      | some vs => simp

theorem processNotesBatchGo_api_calls (maxR C : Nat) (dryRun : Bool)
    (storeOk : Nat → Bool) (genB : Nat → Nat → Option (List Vec))
    (hC : 0 < C) (hmax : 0 < maxR) (hgen : ∀ i, (genB i 1).isSome) :
    ∀ fuel (valid : List (Note × String)) i st, valid.length ≤ fuel →
      (processNotesBatchGo maxR C dryRun storeOk genB fuel i valid st).stats.api_calls =
        st.stats.api_calls + (chunksOf C valid).length := by
  intro fuel
  induction fuel with
  | zero =>
    intro valid i st h
    have : valid = [] := List.eq_nil_of_length_eq_zero (Nat.le_zero.mp h)
    subst this
    simp [processNotesBatchGo, chunksOf_nil]
  | succ f ih =>
    intro valid i st h
    cases valid with
    | nil => simp [processNotesBatchGo, chunksOf_nil]
    | cons nt rest0 =>
      obtain ⟨vs, hv⟩ := Option.isSome_iff_exists.mp (hgen i)
      simp only [processNotesBatchGo,
        executeWithRetry_first_attempt maxR warnBatch (genB i) vs hmax hv]
      have hdrop : ((nt :: rest0).drop C).length ≤ f := by
        rw [List.length_drop]
        simp only [List.length_cons] at h ⊢
        omega
      rw [ih _ (i + 1) _ hdrop,
        (processChunkNotes_preserved dryRun storeOk _ _ _).1,
        chunksOf_cons C hC (nt :: rest0) (by simp)]
      simp only [List.length_cons]
      try dsimp only
      omega

theorem processNotesBatchGo_sum (maxR C : Nat) (dryRun : Bool)
    (storeOk : Nat → Bool) (genB : Nat → Nat → Option (List Vec)) (hC : 0 < C) :
    ∀ fuel (valid : List (Note × String)) i st, valid.length ≤ fuel →
      ((processNotesBatchGo maxR C dryRun storeOk genB fuel i valid st).stats.processed +
        (processNotesBatchGo maxR C dryRun storeOk genB fuel i valid st).stats.errors =
        st.stats.processed + st.stats.errors + valid.length) ∧
      ((processNotesBatchGo maxR C dryRun storeOk genB fuel i valid st).stats.total_found =
        st.stats.total_found) ∧
      ((processNotesBatchGo maxR C dryRun storeOk genB fuel i valid st).stats.skipped_empty =
        st.stats.skipped_empty) ∧
      ((processNotesBatchGo maxR C dryRun storeOk genB fuel i valid st).stats.skipped_too_long =
        st.stats.skipped_too_long) := by
  intro fuel
  induction fuel with
  | zero =>
    intro valid i st h
    have : valid = [] := List.eq_nil_of_length_eq_zero (Nat.le_zero.mp h)
    subst this
    simp [processNotesBatchGo]
  | succ f ih =>
    intro valid i st h
    cases valid with
    | nil => simp [processNotesBatchGo]
    | cons nt rest0 =>
      simp only [processNotesBatchGo]
      have hdrop : ((nt :: rest0).drop C).length ≤ f := by
        rw [List.length_drop]
        simp only [List.length_cons] at h ⊢
        omega
      have hlentake : ((nt :: rest0).take C).length + ((nt :: rest0).drop C).length =
          (nt :: rest0).length := by
        rw [List.length_take, List.length_drop]
        simp only [List.length_cons]
        omega
      cases hres : (executeWithRetry maxR warnBatch (genB i)).result with
      | none =>
        refine ⟨?_, ?_, ?_, ?_⟩
        · rw [(ih _ (i + 1) _ hdrop).1, processChunkNotes_sum]
          try dsimp only
          omega
        · rw [(ih _ (i + 1) _ hdrop).2.1,
            (processChunkNotes_preserved dryRun storeOk _ _ _).2.1]
        · rw [(ih _ (i + 1) _ hdrop).2.2.1,
            (processChunkNotes_preserved dryRun storeOk _ _ _).2.2.1]
        · rw [(ih _ (i + 1) _ hdrop).2.2.2,
            (processChunkNotes_preserved dryRun storeOk _ _ _).2.2.2.1]
      | some vs =>
        refine ⟨?_, ?_, ?_, ?_⟩
        · rw [(ih _ (i + 1) _ hdrop).1, processChunkNotes_sum]
          try dsimp only
          omega
        · rw [(ih _ (i + 1) _ hdrop).2.1,
            (processChunkNotes_preserved dryRun storeOk _ _ _).2.1]
        · rw [(ih _ (i + 1) _ hdrop).2.2.1,
            (processChunkNotes_preserved dryRun storeOk _ _ _).2.2.1]
        · rw [(ih _ (i + 1) _ hdrop).2.2.2,
            (processChunkNotes_preserved dryRun storeOk _ _ _).2.2.2.1]

theorem processNotesBatchGo_dry_db (maxR C : Nat) (storeOk : Nat → Bool)
    (genB : Nat → Nat → Option (List Vec)) :
    ∀ fuel i (valid : List (Note × String)) st,
      (processNotesBatchGo maxR C true storeOk genB fuel i valid st).db_updates =
        st.db_updates := by
  intro fuel
  induction fuel with
  | zero => intro i valid st; rfl
  | succ f ih =>
    intro i valid st
    cases valid with
    | nil => rfl
    | cons nt rest0 =>
      simp only [processNotesBatchGo]
      rw [ih, processChunkNotes_dry_db]
      cases hres : (executeWithRetry maxR warnBatch (genB i)).result with
      | none => rfl
      | some vs => rfl

/-! ## Helper lemmas about the single-record loop -/

theorem processNotesSingleGo_counts (maxR : Nat) (dryRun : Bool) (storeOk : Nat → Bool)
    (genS : Nat → Nat → Option Vec) :
    ∀ (valid : List (Note × String)) idx st,
      ((processNotesSingleGo maxR dryRun storeOk genS idx valid st).stats.processed +
        (processNotesSingleGo maxR dryRun storeOk genS idx valid st).stats.errors =
        st.stats.processed + st.stats.errors + valid.length) ∧
      ((processNotesSingleGo maxR dryRun storeOk genS idx valid st).stats.total_found =
        st.stats.total_found) ∧
      ((processNotesSingleGo maxR dryRun storeOk genS idx valid st).stats.skipped_empty =
        st.stats.skipped_empty) ∧
      ((processNotesSingleGo maxR dryRun storeOk genS idx valid st).stats.skipped_too_long =
        st.stats.skipped_too_long) := by
  intro valid
  induction valid with
  | nil => intro idx st; simp [processNotesSingleGo]
  | cons hd rest ih =>
    intro idx st
    obtain ⟨note, text⟩ := hd
    simp only [processNotesSingleGo, updateNoteEmbedding, List.length_cons]
    cases hres : (executeWithRetry maxR warnSingle (genS idx)).result with
    | none =>
      refine ⟨?_, ?_, ?_, ?_⟩
      · rw [(ih (idx + 1) _).1]
        try dsimp only
        omega
      · rw [(ih (idx + 1) _).2.1]
      · rw [(ih (idx + 1) _).2.2.1]
      · rw [(ih (idx + 1) _).2.2.2]
    | some v =>
      cases dryRun with
      | true =>
        simp only [eq_self_iff_true, if_true]
        refine ⟨?_, ?_, ?_, ?_⟩
        · rw [(ih (idx + 1) _).1]
          try dsimp only
          omega
        · rw [(ih (idx + 1) _).2.1]
        · rw [(ih (idx + 1) _).2.2.1]
        · rw [(ih (idx + 1) _).2.2.2]
      | false =>
        simp only [Bool.false_eq_true, if_false]
        split
        · refine ⟨?_, ?_, ?_, ?_⟩
          · rw [(ih (idx + 1) _).1]
            try dsimp only
            omega
          · rw [(ih (idx + 1) _).2.1]
          · rw [(ih (idx + 1) _).2.2.1]
          · rw [(ih (idx + 1) _).2.2.2]
        · refine ⟨?_, ?_, ?_, ?_⟩
          · rw [(ih (idx + 1) _).1]
            try dsimp only
            omega
          · rw [(ih (idx + 1) _).2.1]
          · rw [(ih (idx + 1) _).2.2.1]
          · rw [(ih (idx + 1) _).2.2.2]

theorem processNotesSingleGo_dry (maxR : Nat) (storeOk : Nat → Bool)
    (genS : Nat → Nat → Option Vec) :
    ∀ (valid : List (Note × String)) idx st,
      ((processNotesSingleGo maxR true storeOk genS idx valid st).db_updates =
        st.db_updates) ∧
      ((processNotesSingleGo maxR true storeOk genS idx valid st).stats.processed =
        st.stats.processed + (List.range' idx valid.length).countP
          (fun i => ((executeWithRetry maxR warnSingle (genS i)).result).isSome)) ∧
      ((processNotesSingleGo maxR true storeOk genS idx valid st).stats.errors =
        st.stats.errors + (List.range' idx valid.length).countP
          (fun i => ((executeWithRetry maxR warnSingle (genS i)).result).isNone)) := by
  intro valid
  induction valid with
  | nil => intro idx st; simp [processNotesSingleGo, List.range']
  | cons hd rest ih =>
    intro idx st
    obtain ⟨note, text⟩ := hd
    simp only [processNotesSingleGo, updateNoteEmbedding, List.length_cons]
    cases hres : (executeWithRetry maxR warnSingle (genS idx)).result with
    | none =>
      refine ⟨?_, ?_, ?_⟩
      · rw [(ih (idx + 1) _).1]
      · rw [(ih (idx + 1) _).2.1]
        simp only [List.range', List.countP_cons, hres, Option.isSome_none,
          Bool.false_eq_true, if_false]
        try dsimp only
        omega
      · rw [(ih (idx + 1) _).2.2]
        simp only [List.range', List.countP_cons, hres, Option.isNone_none, if_true]
        try dsimp only
        omega
    | some v =>
      simp only [eq_self_iff_true, if_true]
      refine ⟨?_, ?_, ?_⟩
      · rw [(ih (idx + 1) _).1]
      · rw [(ih (idx + 1) _).2.1]
        simp only [List.range', List.countP_cons, hres, Option.isSome_some, if_true]
        try dsimp only
        omega
      · rw [(ih (idx + 1) _).2.2]
        simp only [List.range', List.countP_cons, hres, Option.isNone_some,
          Bool.false_eq_true, if_false]
        try dsimp only
        omega

/-! ## Helper lemmas about the validation pass -/

theorem prepareNotes_stats (parse : String → Option JsonVal) (maxLen : Nat) :
    ∀ (notes : List Note) (st : RunState),
      ((prepareNotes parse maxLen notes st).1.stats.api_calls = st.stats.api_calls) ∧
      ((prepareNotes parse maxLen notes st).1.stats.processed = st.stats.processed) ∧
      ((prepareNotes parse maxLen notes st).1.stats.errors = st.stats.errors) ∧
      ((prepareNotes parse maxLen notes st).1.stats.total_found = st.stats.total_found) ∧
      ((prepareNotes parse maxLen notes st).1.error_notes = st.error_notes) ∧
      ((prepareNotes parse maxLen notes st).1.db_updates = st.db_updates) ∧
      ((prepareNotes parse maxLen notes st).1.dispatched = st.dispatched) ∧
      ((prepareNotes parse maxLen notes st).1.stats.skipped_empty +
        (prepareNotes parse maxLen notes st).1.stats.skipped_too_long +
        (prepareNotes parse maxLen notes st).2.length =
        st.stats.skipped_empty + st.stats.skipped_too_long + notes.length) := by
  intro notes
  induction notes with
  | nil => intro st; simp [prepareNotes]
  | cons note rest ih =>
    intro st
    simp only [prepareNotes, List.length_cons]
    cases hcl : classifyText maxLen (buildTextForEmbedding parse note) with
    | skippedEmpty =>
      refine ⟨?_, ?_, ?_, ?_, ?_, ?_, ?_, ?_⟩
      · rw [(ih _).1]
      · rw [(ih _).2.1]
      · rw [(ih _).2.2.1]
      · rw [(ih _).2.2.2.1]
      · rw [(ih _).2.2.2.2.1]
      · rw [(ih _).2.2.2.2.2.1]
      · rw [(ih _).2.2.2.2.2.2.1]
      · rw [(ih _).2.2.2.2.2.2.2]
        try dsimp only
        omega
    | skippedTooLong n =>
      refine ⟨?_, ?_, ?_, ?_, ?_, ?_, ?_, ?_⟩
      · rw [(ih _).1]
      · rw [(ih _).2.1]
      · rw [(ih _).2.2.1]
      · rw [(ih _).2.2.2.1]
      · rw [(ih _).2.2.2.2.1]
      · rw [(ih _).2.2.2.2.2.1]
      · rw [(ih _).2.2.2.2.2.2.1]
      · rw [(ih _).2.2.2.2.2.2.2]
        try dsimp only
        omega
    | accepted =>
      refine ⟨?_, ?_, ?_, ?_, ?_, ?_, ?_, ?_⟩
      · rw [(ih _).1]
      · rw [(ih _).2.1]
      · rw [(ih _).2.2.1]
      · rw [(ih _).2.2.2.1]
      · rw [(ih _).2.2.2.2.1]
      · rw [(ih _).2.2.2.2.2.1]
      · rw [(ih _).2.2.2.2.2.2.1]
      · have h8 := (ih st).2.2.2.2.2.2.2
        try dsimp only
        simp only [List.length_cons]
        omega

theorem prepareNotes_valid (parse : String → Option JsonVal) (maxLen : Nat) :
    ∀ (notes : List Note) (st : RunState),
      (prepareNotes parse maxLen notes st).2 = notes.filterMap (fun note =>
        match classifyText maxLen (buildTextForEmbedding parse note) with
        | .accepted => some (note, buildTextForEmbedding parse note)
        | _ => none) := by
  intro notes
  induction notes with
  | nil => intro st; rfl
  | cons note rest ih =>
    intro st
    simp only [prepareNotes, List.filterMap_cons]
    cases hcl : classifyText maxLen (buildTextForEmbedding parse note) with
    | skippedEmpty => simp [hcl, ih]
    | skippedTooLong n => simp [hcl, ih]
    | accepted => simp [hcl, ih]

/-! ## Concrete sample data for closed witnesses -/

/-- A small concrete record used by closed witness statements. -/
def sampleNote (i : Nat) : Note := ⟨i, some "T", none, none, none, some "hello"⟩

/-! ## Claim theorems -/

/-- C1: for every operation wrapped by the retry loop with maximum attempt
count `maxR`: if the operation fails on attempts `1..k` and succeeds on
attempt `k + 1 ≤ maxR`, the wrapper returns that success immediately with
exactly `k` sleeps of durations `2^1, ..., 2^k` (the list
`(range' 1 k).map (2 ^ ·)`), invoking the operation exactly on attempts
`1..k+1`; if the operation fails on all `maxR` attempts, the wrapper
returns the failure marker `none` (it never raises: it is a total
function), performs exactly `maxR - 1` sleeps, invokes the operation
exactly on attempts `1..maxR`, and never invokes it a `maxR + 1`-th
time.  Stated generically over the wrapped operation, covering both the
single-record and the whole-batch instantiation. -/
theorem C1_retry_executor {α : Type} (maxR k : Nat) (warn : α → List Nat)
    (gen : Nat → Option α) (v : α) :
    ((k + 1 ≤ maxR → (∀ a, 1 ≤ a → a ≤ k → gen a = none) → gen (k + 1) = some v →
      executeWithRetry maxR warn gen =
        ⟨some v, (List.range' 1 k).map (2 ^ ·), List.range' 1 (k + 1), warn v⟩ ∧
      ((List.range' 1 k).map (2 ^ ·)).length = k) ∧
    ((∀ a, 1 ≤ a → a ≤ maxR → gen a = none) →
      executeWithRetry maxR warn gen =
        ⟨none, (List.range' 1 (maxR - 1)).map (2 ^ ·), List.range' 1 maxR, []⟩ ∧
      ((List.range' 1 (maxR - 1)).map (2 ^ ·)).length = maxR - 1 ∧
      (List.range' 1 maxR).length = maxR ∧
      maxR + 1 ∉ List.range' 1 maxR)) := by
  constructor
  · intro hk hfail hsucc
    refine ⟨executeWithRetry_succeeds maxR k warn gen v hk hfail hsucc, ?_⟩
    simp
  · intro hfail
    refine ⟨executeWithRetry_all_fail maxR warn gen hfail, by simp, by simp, ?_⟩
    intro hmem
    rw [List.mem_range'_1] at hmem
    omega

/-- Witness for C1 at concrete inputs: an operation failing once then
succeeding with a 1-entry vector (one sleep of 2 time units, a recorded
dimension warning), and an operation failing all 3 attempts (two sleeps
2 and 4, attempts 1,2,3, failure marker). -/
theorem C1_retry_executor_witness :
    (executeWithRetry 3 warnSingle (fun a => if a = 2 then some [(5 : Int)] else none) =
      ⟨some [(5 : Int)], [2], [1, 2], [1]⟩) ∧
    (executeWithRetry 3 warnSingle (fun _ => (none : Option Vec)) =
      ⟨none, [2, 4], [1, 2, 3], []⟩) := by
  constructor
  · have h := (C1_retry_executor 3 1 warnSingle
      (fun a => if a = 2 then some [(5 : Int)] else none) [(5 : Int)]).1
      (by omega)
      (fun a h1 h2 => by
        have ha : a = 1 := by omega
        subst ha; rfl)
      rfl
    exact h.1.trans (by decide)
  · have h := (C1_retry_executor 3 0 warnSingle (fun _ => (none : Option Vec)) []).2
      (fun a h1 h2 => rfl)
    exact h.1.trans (by decide)

/-- C2: for M accepted candidates and chunk size C > 0, the batch
scheduler partitions them in input order into exactly
`ceil(M / C) = (M + C - 1) / C` contiguous chunks (their concatenation is
the input list), every chunk except possibly the last has size `C` (all
have size between 1 and C), the last has size `M % C` when that is
nonzero; the `dispatched` trace records exactly one dispatch per chunk,
and a run in which every chunk's batch call succeeds on its first
attempt records exactly `ceil(M / C)` API calls. -/
theorem C2_batch_scheduler (maxR C : Nat) (dryRun : Bool) (storeOk : Nat → Bool)
    (genB : Nat → Nat → Option (List Vec)) (valid : List (Note × String))
    (st : RunState) (hC : 0 < C) :
    ((chunksOf C valid).length = (valid.length + C - 1) / C) ∧
    ((chunksOf C valid).flatten = valid) ∧
    (∀ c ∈ (chunksOf C valid).dropLast, c.length = C) ∧
    (∀ c ∈ chunksOf C valid, c ≠ [] ∧ c.length ≤ C) ∧
    (valid ≠ [] → valid.length % C ≠ 0 →
      ∃ c, (chunksOf C valid).getLast? = some c ∧ c.length = valid.length % C) ∧
    ((processNotesBatch maxR C dryRun storeOk genB valid st).dispatched =
      st.dispatched ++ (chunksOf C valid).map (List.map (fun p => p.1.id))) ∧
    (0 < maxR → (∀ i, (genB i 1).isSome) →
      (processNotesBatch maxR C dryRun storeOk genB valid st).stats.api_calls =
        st.stats.api_calls + (valid.length + C - 1) / C) := by
  refine ⟨chunksOf_length C hC valid, chunksOf_flatten C hC valid,
    chunksOf_dropLast_sizes C hC valid, chunksOf_mem_sizes C hC valid, ?_, ?_, ?_⟩
  · intro hne hmod
    obtain ⟨c, h1, h2⟩ := chunksOf_last_length C hC valid hne
    exact ⟨c, h1, by rwa [if_neg hmod] at h2⟩
  · exact processNotesBatchGo_dispatched maxR C dryRun storeOk genB hC _ valid 0 st le_rfl
  · intro hmax hgen
    rw [processNotesBatch,
      processNotesBatchGo_api_calls maxR C dryRun storeOk genB hC hmax hgen _ valid 0 st le_rfl,
      chunksOf_length C hC valid]

/-- Witness for C2: 3 accepted candidates with chunk size 2 give chunks
of ids [1,2] and [3], and exactly 2 API calls when every chunk succeeds
at its first attempt. -/
theorem C2_batch_scheduler_witness :
    (processNotesBatch 3 2 false (fun _ => true) (fun _ _ => some [[1], [2]])
        [(sampleNote 1, "a"), (sampleNote 2, "b"), (sampleNote 3, "c")]
        (initialState 3)).dispatched = [[1, 2], [3]] ∧
    (processNotesBatch 3 2 false (fun _ => true) (fun _ _ => some [[1], [2]])
        [(sampleNote 1, "a"), (sampleNote 2, "b"), (sampleNote 3, "c")]
        (initialState 3)).stats.api_calls = 2 := by
  have h := C2_batch_scheduler 3 2 false (fun _ => true) (fun _ _ => some [[1], [2]])
    [(sampleNote 1, "a"), (sampleNote 2, "b"), (sampleNote 3, "c")] (initialState 3)
    (by decide)
  constructor
  · exact (h.2.2.2.2.2.1).trans (by decide)
  · exact (h.2.2.2.2.2.2 (by decide) (fun i => rfl)).trans (by decide)

/-- C3: for a chunk whose batch call fails on all retry attempts, the
retry wrapper returns the failure marker after invoking the batch call
exactly on attempts `1..maxR`, and the per-chunk update loop then marks
every record of the chunk failed: the errors counter grows by the chunk
size, one error summary is appended per record, and everything else —
processed counter, api_calls counter, skip data, db_updates (so no
persistence is attempted), dispatched — is untouched; in particular no
per-record fallback retry is issued. -/
theorem C3_chunk_all_fail (maxR : Nat) (dryRun : Bool) (storeOk : Nat → Bool)
    (genB : Nat → Nat → Option (List Vec)) (i : Nat)
    (chunk : List (Note × String)) (st : RunState)
    (hfail : ∀ a, 1 ≤ a → a ≤ maxR → genB i a = none) :
    ((executeWithRetry maxR warnBatch (genB i)).result = none) ∧
    ((executeWithRetry maxR warnBatch (genB i)).calls = List.range' 1 maxR) ∧
    (processChunkNotes dryRun storeOk (chunkTable chunk none) chunk st =
      { st with
        stats := { st.stats with errors := st.stats.errors + chunk.length }
        error_notes := st.error_notes ++ chunk.map (fun p => batchFailEntry p.1) }) := by
  have h := executeWithRetry_all_fail maxR warnBatch (genB i) hfail
  exact ⟨by rw [h], by rw [h], processChunkNotes_empty_tbl dryRun storeOk chunk st⟩

/-- Witness for C3: a 2-record chunk whose batch call raises on all 3
attempts yields errors = 2, one summary per record, and nothing else. -/
theorem C3_chunk_all_fail_witness :
    ((executeWithRetry 3 warnBatch (fun _ => (none : Option (List Vec)))).result = none) ∧
    (processChunkNotes false (fun _ => true)
      (chunkTable [(sampleNote 1, "a"), (sampleNote 2, "b")] none)
      [(sampleNote 1, "a"), (sampleNote 2, "b")] (initialState 2) =
      { initialState 2 with
        stats := { (initialState 2).stats with errors := 2 }
        error_notes := [batchFailEntry (sampleNote 1), batchFailEntry (sampleNote 2)] }) := by
  have h := C3_chunk_all_fail 3 false (fun _ => true)
    (fun _ _ => (none : Option (List Vec))) 0 [(sampleNote 1, "a"), (sampleNote 2, "b")]
    (initialState 2) (fun a h1 h2 => rfl)
  exact ⟨h.1, h.2.2.trans (by decide)⟩

/-- C4: validation classifies every assembled text into exactly one
outcome — SkippedEmpty iff the text is empty after stripping,
SkippedTooLong (carrying the measured length) iff it is non-empty after
stripping and strictly longer than the configured maximum, Accepted iff
non-empty after stripping and within the maximum; the validation pass
leaves the api_calls counter untouched (so skipped records consume no
provider call and no retry budget), and the list handed to the
dispatchers contains exactly the accepted records, in input order. -/
theorem C4_validation_classification (parse : String → Option JsonVal)
    (maxLen : Nat) (notes : List Note) (st : RunState) (t : String) :
    ((classifyText maxLen t = .skippedEmpty ↔ pyStrip t = "") ∧
     (∀ n, classifyText maxLen t = .skippedTooLong n ↔
        pyStrip t ≠ "" ∧ maxLen < t.length ∧ n = t.length) ∧
     (classifyText maxLen t = .accepted ↔ pyStrip t ≠ "" ∧ t.length ≤ maxLen)) ∧
    ((prepareNotes parse maxLen notes st).1.stats.api_calls = st.stats.api_calls) ∧
    ((prepareNotes parse maxLen notes st).2 = notes.filterMap (fun note =>
      match classifyText maxLen (buildTextForEmbedding parse note) with
      | .accepted => some (note, buildTextForEmbedding parse note)
      | _ => none)) := by
  refine ⟨⟨?_, ?_, ?_⟩, (prepareNotes_stats parse maxLen notes st).1,
    prepareNotes_valid parse maxLen notes st⟩
  · unfold classifyText
    split_ifs with h1 h2 <;> simp [*]
  · intro n
    unfold classifyText
    split_ifs with h1 h2 <;> simp [*]
    · omega
  · unfold classifyText
    split_ifs with h1 h2 <;> simp [*]
    · omega

/-- Witness for C4 at a concrete run: one empty record, one accepted
record; api_calls stays 0 through validation and only the accepted
record is handed over. -/
theorem C4_validation_classification_witness :
    (classifyText 8000 "" = .skippedEmpty) ∧
    ((prepareNotes jsonLoadsModel 8000
        [⟨7, none, none, none, none, none⟩, sampleNote 1]
        (initialState 2)).1.stats.api_calls = 0) ∧
    ((prepareNotes jsonLoadsModel 8000
        [⟨7, none, none, none, none, none⟩, sampleNote 1]
        (initialState 2)).2 =
      [(sampleNote 1, "Title: T | Content: hello")]) := by
  have h := C4_validation_classification jsonLoadsModel 8000
    [⟨7, none, none, none, none, none⟩, sampleNote 1] (initialState 2) ""
  exact ⟨(h.1.1).mpr (by decide), (h.2.1).trans (by decide), (h.2.2).trans (by decide)⟩

/-! ## Helper lemmas about assembled parts -/

theorem append_ne_empty_left (a b : String) (ha : a.length ≠ 0) : a ++ b ≠ "" := by
  intro h
  have h2 := congrArg String.length h
  rw [String.length_append] at h2
  simp at h2
  exact ha h2.1

theorem strField_mem (label : String) (o : Option String) (p : String)
    (hp : p ∈ strField label o) : p = label ++ ": " ++ pyStrip (getStr o) := by
  simp only [strField] at hp
  split_ifs at hp
  · simp at hp
  · simpa using hp

theorem tagsParts_mem (parse : String → Option JsonVal) (tags : Option TagField)
    (p : String) (hp : p ∈ tagsParts parse tags) : ∃ x, p = "Tags: " ++ x := by
  cases tags with
  | none => simp [tagsParts] at hp
  | some tf =>
    cases tf with
    | ofList l =>
      simp only [tagsParts] at hp
      split at hp
      · simp at hp
      · exact ⟨_, by simpa using hp⟩
    | ofString s =>
      by_cases hs : s = ""
      · simp [tagsParts, hs] at hp
      · cases hps : parse s with
        | none =>
          simp [tagsParts, hs, hps] at hp
          exact ⟨_, hp⟩
        | some jv =>
          cases jv with
          | jother => simp [tagsParts, hs, hps] at hp
          | jlist l =>
            simp [tagsParts, hs, hps] at hp
            exact ⟨_, hp.2⟩

theorem partsOf_ne_empty (parse : String → Option JsonVal) (note : Note) :
    ∀ p ∈ partsOf parse note, p ≠ "" := by
  intro p hp
  simp only [partsOf, List.mem_append] at hp
  have hlbl : ∀ (lbl v : String), lbl ++ ": " ++ v ≠ "" := by
    intro lbl v
    exact append_ne_empty_left (lbl ++ ": ") v
      (by rw [String.length_append, show (": ").length = 2 from rfl]; omega)
  rcases hp with ((((h | h) | h) | h) | h)
  · rw [strField_mem _ _ _ h]; exact hlbl _ _
  · rw [strField_mem _ _ _ h]; exact hlbl _ _
  · rw [strField_mem _ _ _ h]; exact hlbl _ _
  · obtain ⟨x, rfl⟩ := tagsParts_mem parse note.tags p h
    exact append_ne_empty_left "Tags: " x (by decide)
  · rw [strField_mem _ _ _ h]; exact hlbl _ _

/-- C5 counterexample: a record whose only set field is the tags string
`"   "` — whitespace-only, hence empty after trimming — still assembles
to the non-empty text `"Tags:    "`: the whitespace-only tags field is
not omitted, contradicting the claim that every field empty or
whitespace-only after trimming is omitted entirely.  (`"   "` is truthy
in Python, is not valid JSON — `json.loads` raises, modelled by
`jsonLoadsModel "   " = none` — and is therefore rendered as a single
whitespace tag.) -/
theorem C5_counterexample :
    (pyStrip "   " = "") ∧
    (buildTextForEmbedding jsonLoadsModel ⟨0, none, none, none, some (.ofString "   "), none⟩ =
      "Tags: " ++ "   ") ∧
    (buildTextForEmbedding jsonLoadsModel ⟨0, none, none, none, some (.ofString "   "), none⟩ ≠
      "") := by
  refine ⟨by decide, by decide, by decide⟩

/-- C5 (amended): the assembled text joins the parts list with `" | "`,
the parts appear in the fixed order Title, Excerpt, Category, Tags,
Content; every part is non-empty (so the result has no empty label and
no dangling separator); each of the four stripped string fields is
omitted entirely when empty or whitespace-only after trimming, and a
tags field that is absent, the empty string, or an empty list is
omitted — but a non-empty tags string that fails JSON decoding (for
example a whitespace-only one) is kept as a single tag rather than
omitted; a record whose only non-empty field is the transcription
assembles to exactly one segment `"Content: <text>"`. -/
theorem C5_assembler_amended (parse : String → Option JsonVal) (note : Note)
    (lbl s : String) :
    (buildTextForEmbedding parse note = String.intercalate " | " (partsOf parse note)) ∧
    (partsOf parse note =
      strField "Title" note.title ++ strField "Excerpt" note.excerpt ++
      strField "Category" note.categories ++ tagsParts parse note.tags ++
      strField "Content" note.transcription) ∧
    (∀ p ∈ partsOf parse note, p ≠ "") ∧
    (pyStrip s = "" → strField lbl (some s) = []) ∧
    (strField lbl none = []) ∧
    (tagsParts parse none = []) ∧
    (tagsParts parse (some (.ofString "")) = []) ∧
    (tagsParts parse (some (.ofList [])) = []) ∧
    (s ≠ "" → parse s = none →
      tagsParts parse (some (.ofString s)) = ["Tags: " ++ s]) ∧
    (∀ i, pyStrip s ≠ "" →
      buildTextForEmbedding parse ⟨i, none, none, none, none, some s⟩ =
        "Content: " ++ pyStrip s) := by
  refine ⟨rfl, rfl, partsOf_ne_empty parse note, ?_, ?_, rfl, by simp [tagsParts],
    by simp [tagsParts], ?_, ?_⟩
  · intro h
    simp [strField, getStr, h]
  · simp [strField, getStr, pyStrip]
  · intro hs hpar
    simp [tagsParts, hs, hpar]
    rfl
  · intro i h
    simp [buildTextForEmbedding, partsOf, strField, getStr, tagsParts, h,
      show pyStrip "" = "" from rfl]
    try rfl

/-- Witness for C5 (amended) at concrete inputs. -/
theorem C5_assembler_amended_witness :
    (strField "Title" (some " \t ") = []) ∧
    (tagsParts jsonLoadsModel (some (.ofString "   ")) = ["Tags: " ++ "   "]) ∧
    (buildTextForEmbedding jsonLoadsModel ⟨3, none, none, none, none, some " hi "⟩ =
      "Content: hi") := by
  have h := C5_assembler_amended jsonLoadsModel
    ⟨3, none, none, none, none, some " hi "⟩ "Title" " \t "
  exact ⟨h.2.2.2.1 (by decide), by decide, by decide⟩

/-- C6 counterexample: the empty string `""` is not valid JSON
(`json.loads("")` raises, modelled by `jsonLoadsModel "" = none`), yet
the code drops it entirely — its Python falsiness is checked before any
parse — instead of treating it as a single tag rendered as itself: a
record with `tags = ""` and transcription `"x"` assembles with no Tags
segment at all, contradicting the claim's "never dropped" for
not-valid-JSON tag strings. -/
theorem C6_counterexample :
    (jsonLoadsModel "" = none) ∧
    (tagsParts jsonLoadsModel (some (.ofString "")) = []) ∧
    (buildTextForEmbedding jsonLoadsModel ⟨0, none, none, none, some (.ofString ""), some "x"⟩ =
      "Content: x") := by
  refine ⟨by decide, by decide, by decide⟩

/-- C6 (amended): for a record whose tags field is a string: if it
parses as a JSON list, the tags segment renders the list comma-joined
(the concrete input from the claim included); if it is non-empty and
not valid JSON it is treated as a single tag rendered as itself, never
dropped (and the assembler is a total function, so it never raises); a
tags value that is the empty string, or is (or parses to) an empty
list, yields no Tags segment. -/
theorem C6_tags_amended (parse : String → Option JsonVal) (s : String)
    (l : List String) :
    ((parse s = some (.jlist l)) → l ≠ [] → s ≠ "" →
      tagsParts parse (some (.ofString s)) =
        ["Tags: " ++ String.intercalate ", " l]) ∧
    (jsonLoadsModel "[\"a\",\"b\"]" = some (.jlist ["a", "b"])) ∧
    (tagsParts jsonLoadsModel (some (.ofString "[\"a\",\"b\"]")) = ["Tags: a, b"]) ∧
    (s ≠ "" → parse s = none →
      tagsParts parse (some (.ofString s)) = ["Tags: " ++ s]) ∧
    (parse s = some (.jlist []) → tagsParts parse (some (.ofString s)) = []) ∧
    (tagsParts parse (some (.ofList [])) = []) ∧
    (tagsParts parse (some (.ofString "")) = []) := by
  refine ⟨?_, by decide, by decide, ?_, ?_, by simp [tagsParts], by simp [tagsParts]⟩
  · intro hpar hl hs
    simp [tagsParts, hs, hpar, hl]
  · intro hs hpar
    simp [tagsParts, hs, hpar]
    rfl
  · intro hpar
    by_cases hs : s = ""
    · simp [tagsParts, hs]
    · simp [tagsParts, hs, hpar]

/-- Witness for C6 (amended) at concrete inputs: a parsed list, a
malformed tag string kept as itself, and empty cases dropped. -/
theorem C6_tags_amended_witness :
    (tagsParts jsonLoadsModel (some (.ofString "[\"a\",\"b\"]")) = ["Tags: a, b"]) ∧
    (tagsParts jsonLoadsModel (some (.ofString "notjson")) = ["Tags: notjson"]) ∧
    (tagsParts jsonLoadsModel (some (.ofString "[]")) = []) := by
  have h := C6_tags_amended jsonLoadsModel "notjson" ["a", "b"]
  have h2 := C6_tags_amended jsonLoadsModel "[]" []
  refine ⟨h.2.2.1, ?_, ?_⟩
  · exact (h.2.2.2.1 (by decide) (by decide)).trans (by decide)
  · exact h2.2.2.2.2.1 (by decide)

/-- C7: in simulate-only (dry-run) mode the persistence step reports
success without touching the store: the updater returns `true` and
changes nothing; a single-mode dry run performs zero store update calls
while still incrementing the processed counter exactly once per record
whose generation succeeded and the errors counter once per record whose
generation failed; a batch-mode dry run also performs zero store update
calls; and the handling of a failed generation is literally the same
state transition whatever the dry-run flag is. -/
theorem C7_dry_run (maxR C : Nat) (storeOk : Nat → Bool)
    (genS : Nat → Nat → Option Vec) (genB : Nat → Nat → Option (List Vec))
    (dryRun : Bool) :
    (∀ id v st, updateNoteEmbedding true storeOk id v st = (true, st)) ∧
    (∀ (valid : List (Note × String)) idx st,
      ((processNotesSingleGo maxR true storeOk genS idx valid st).db_updates =
        st.db_updates) ∧
      ((processNotesSingleGo maxR true storeOk genS idx valid st).stats.processed =
        st.stats.processed + (List.range' idx valid.length).countP
          (fun i => ((executeWithRetry maxR warnSingle (genS i)).result).isSome)) ∧
      ((processNotesSingleGo maxR true storeOk genS idx valid st).stats.errors =
        st.stats.errors + (List.range' idx valid.length).countP
          (fun i => ((executeWithRetry maxR warnSingle (genS i)).result).isNone))) ∧
    (∀ fuel i (valid : List (Note × String)) st,
      (processNotesBatchGo maxR C true storeOk genB fuel i valid st).db_updates =
        st.db_updates) ∧
    (∀ note text (rest : List (Note × String)) idx st,
      (executeWithRetry maxR warnSingle (genS idx)).result = none →
      processNotesSingleGo maxR dryRun storeOk genS idx ((note, text) :: rest) st =
        processNotesSingleGo maxR dryRun storeOk genS (idx + 1) rest
          { st with
            stats := { st.stats with errors := st.stats.errors + 1 }
            error_notes := st.error_notes ++ [genFailEntry note] }) := by
  refine ⟨fun id v st => rfl, processNotesSingleGo_dry maxR storeOk genS,
    fun fuel i valid st => processNotesBatchGo_dry_db maxR C storeOk genB fuel i valid st,
    ?_⟩
  intro note text rest idx st hres
  simp only [processNotesSingleGo, hres]

/-- Witness for C7: a dry run over two records where the first
generation succeeds and the second fails on every attempt: no update
call is recorded, processed = 1 and errors = 1. -/
theorem C7_dry_run_witness :
    ((processNotesSingleGo 3 true (fun _ => false)
        (fun i _ => if i = 0 then some [1] else none) 0
        [(sampleNote 1, "a"), (sampleNote 2, "b")] (initialState 2)).db_updates = []) ∧
    ((processNotesSingleGo 3 true (fun _ => false)
        (fun i _ => if i = 0 then some [1] else none) 0
        [(sampleNote 1, "a"), (sampleNote 2, "b")] (initialState 2)).stats.processed = 1) ∧
    ((processNotesSingleGo 3 true (fun _ => false)
        (fun i _ => if i = 0 then some [1] else none) 0
        [(sampleNote 1, "a"), (sampleNote 2, "b")] (initialState 2)).stats.errors = 1) := by
  have h := (C7_dry_run 3 2 (fun _ => false)
    (fun i _ => if i = 0 then some [1] else none) (fun _ _ => none) false).2.1
    [(sampleNote 1, "a"), (sampleNote 2, "b")] 0 (initialState 2)
  exact ⟨h.1, h.2.1.trans (by decide), h.2.2.trans (by decide)⟩

/-- C8: a record whose vector was generated but whose real (non-dry-run)
store update reports no confirmed write is recorded as an error exactly
once (errors counter +1, one summary appended), the update is attempted
exactly once (one entry in `db_updates`, no retry), the record is not
counted as processed, and the loop continues with the remaining records
from that state — a persistence failure never aborts the run. -/
theorem C8_persistence_failure (maxR : Nat) (storeOk : Nat → Bool)
    (genS : Nat → Nat → Option Vec) (note : Note) (text : String)
    (rest : List (Note × String)) (idx : Nat) (st : RunState) (v : Vec)
    (hgen : (executeWithRetry maxR warnSingle (genS idx)).result = some v)
    (hstore : storeOk note.id = false) :
    processNotesSingleGo maxR false storeOk genS idx ((note, text) :: rest) st =
      processNotesSingleGo maxR false storeOk genS (idx + 1) rest
        { st with
          stats := { st.stats with
            errors := st.stats.errors + 1
            api_calls := st.stats.api_calls + 1 }
          error_notes := st.error_notes ++ [dbFailEntry note]
          db_updates := st.db_updates ++ [(note.id, v)] } := by
  simp only [processNotesSingleGo, hgen, updateNoteEmbedding, Bool.false_eq_true,
    if_false, hstore]

/-- Witness for C8 at a concrete input: one record, generation succeeds,
store refuses: errors = 1, exactly one update attempt, processed = 0. -/
theorem C8_persistence_failure_witness :
    processNotesSingleGo 3 false (fun _ => false) (fun _ _ => some [7]) 0
      [(sampleNote 1, "a")] (initialState 1) =
      { initialState 1 with
        stats := { (initialState 1).stats with errors := 1, api_calls := 1 }
        error_notes := [dbFailEntry (sampleNote 1)]
        db_updates := [(1, [7])] } := by
  have h := C8_persistence_failure 3 (fun _ => false) (fun _ _ => some [7])
    (sampleNote 1) "a" [] 0 (initialState 1) [7] rfl rfl
  exact h.trans (by decide)

/-- C9: a provider call returning a vector of unexpected length is still
a success: the retry wrapper records the mismatch as a dimension warning
but returns the vector at once with no further attempt, no sleep and no
failure marker (likewise the batch wrapper returns the vector list
unchanged whatever the lengths), and the record is still persisted and
counted as processed with no error entry. -/
theorem C9_dimension_mismatch (maxR : Nat) (gen : Nat → Option Vec) (v : Vec)
    (genB0 : Nat → Option (List Vec)) (vs : List Vec) (storeOk : Nat → Bool)
    (genS : Nat → Nat → Option Vec) (note : Note) (text : String)
    (rest : List (Note × String)) (idx : Nat) (st : RunState)
    (hmax : 0 < maxR) (h1 : gen 1 = some v)
    (hdim : v.length ≠ EXPECTED_VECTOR_DIMENSION) :
    (executeWithRetry maxR warnSingle gen = ⟨some v, [], [1], [v.length]⟩) ∧
    (genB0 1 = some vs →
      executeWithRetry maxR warnBatch genB0 = ⟨some vs, [], [1], warnBatch vs⟩) ∧
    ((executeWithRetry maxR warnSingle (genS idx)).result = some v →
      storeOk note.id = true →
      processNotesSingleGo maxR false storeOk genS idx ((note, text) :: rest) st =
        processNotesSingleGo maxR false storeOk genS (idx + 1) rest
          { st with
            stats := { st.stats with
              processed := st.stats.processed + 1
              api_calls := st.stats.api_calls + 1 }
            db_updates := st.db_updates ++ [(note.id, v)] }) := by
  refine ⟨?_, ?_, ?_⟩
  · rw [executeWithRetry_first_attempt maxR warnSingle gen v hmax h1]
    simp [warnSingle, hdim]
  · intro hb
    exact executeWithRetry_first_attempt maxR warnBatch genB0 vs hmax hb
  · intro hres hstore
    simp only [processNotesSingleGo, hres, updateNoteEmbedding, Bool.false_eq_true,
      if_false, hstore, eq_self_iff_true, if_true]

/-- Witness for C9: a 2-entry vector (length 2, not 1536) is returned at
the first attempt with a recorded warning, then persisted and counted
as processed. -/
theorem C9_dimension_mismatch_witness :
    (executeWithRetry 3 warnSingle (fun _ => some [(1 : Int), 2]) =
      ⟨some [(1 : Int), 2], [], [1], [2]⟩) ∧
    (processNotesSingleGo 3 false (fun _ => true) (fun _ _ => some [(1 : Int), 2]) 0
      [(sampleNote 1, "a")] (initialState 1) =
      { initialState 1 with
        stats := { (initialState 1).stats with processed := 1, api_calls := 1 }
        db_updates := [(1, [1, 2])] }) := by
  have h := C9_dimension_mismatch 3 (fun _ => some [(1 : Int), 2]) [(1 : Int), 2]
    (fun _ => none) [] (fun _ => true) (fun _ _ => some [(1 : Int), 2]) (sampleNote 1)
    "a" [] 0 (initialState 1) (by decide) rfl (by decide)
  exact ⟨h.1, (h.2.2 rfl rfl).trans (by decide)⟩

/-- C10: at report time, for every run with distinct record identities,
`total_found = processed + errors + skipped_empty + skipped_too_long`:
every fetched record lands in exactly one outcome counter, in both the
single and the batch mode and whatever the dry-run flag is.  (The proof
never uses the distinctness hypothesis: the identity holds per record
regardless; it is kept because the claim assumes it.) -/
theorem C10_counter_partition (parse : String → Option JsonVal)
    (maxLen maxR C : Nat) (dryRun supportsBatch : Bool) (storeOk : Nat → Bool)
    (genS : Nat → Nat → Option Vec) (genB : Nat → Nat → Option (List Vec))
    (notes : List Note) (hC : 0 < C) (hids : (notes.map Note.id).Nodup) :
    (runProcess parse maxLen maxR C dryRun supportsBatch storeOk genS genB
      notes).stats.total_found =
      (runProcess parse maxLen maxR C dryRun supportsBatch storeOk genS genB
        notes).stats.processed +
      (runProcess parse maxLen maxR C dryRun supportsBatch storeOk genS genB
        notes).stats.errors +
      (runProcess parse maxLen maxR C dryRun supportsBatch storeOk genS genB
        notes).stats.skipped_empty +
      (runProcess parse maxLen maxR C dryRun supportsBatch storeOk genS genB
        notes).stats.skipped_too_long := by
  cases notes with
  | nil => rfl
  | cons n ns =>
    obtain ⟨-, h2, h3, h4, -, -, -, h8⟩ :=
      prepareNotes_stats parse maxLen (n :: ns) (initialState (n :: ns).length)
    rw [show (initialState (n :: ns).length).stats.processed = 0 from rfl] at h2
    rw [show (initialState (n :: ns).length).stats.errors = 0 from rfl] at h3
    rw [show (initialState (n :: ns).length).stats.total_found = (n :: ns).length
      from rfl] at h4
    rw [show (initialState (n :: ns).length).stats.skipped_empty = 0 from rfl,
      show (initialState (n :: ns).length).stats.skipped_too_long = 0 from rfl] at h8
    simp only [runProcess]
    cases hv : (prepareNotes parse maxLen (n :: ns) (initialState (n :: ns).length)).2 with
    | nil =>
      rw [hv] at h8
      dsimp only
      simp only [List.length_nil] at h8
      omega
    | cons v vs =>
      rw [hv] at h8
      dsimp only
      cases supportsBatch with
      | true =>
        simp only [if_true, eq_self_iff_true, processNotesBatch]
        obtain ⟨hsum, htf, hse, hsl⟩ :=
          processNotesBatchGo_sum maxR C dryRun storeOk genB hC (v :: vs).length
            (v :: vs) 0
            (prepareNotes parse maxLen (n :: ns) (initialState (n :: ns).length)).1 le_rfl
        omega
      | false =>
        simp only [Bool.false_eq_true, if_false]
        obtain ⟨hsum, htf, hse, hsl⟩ :=
          processNotesSingleGo_counts maxR dryRun storeOk genS (v :: vs) 0
            (prepareNotes parse maxLen (n :: ns) (initialState (n :: ns).length)).1
        omega

/-- Witness for C10: a concrete batch-mode run over two distinct
records, one accepted and one skipped as empty, satisfies the counter
partition. -/
theorem C10_counter_partition_witness :
    (([(⟨1, some "A", none, none, none, some "x"⟩ : Note),
       ⟨2, none, none, none, none, none⟩].map Note.id).Nodup) ∧
    ((runProcess jsonLoadsModel 8000 3 2 false true (fun _ => true)
        (fun _ _ => some [1]) (fun _ _ => some [[1], [2]])
        [⟨1, some "A", none, none, none, some "x"⟩,
         ⟨2, none, none, none, none, none⟩]).stats.total_found =
      (runProcess jsonLoadsModel 8000 3 2 false true (fun _ => true)
        (fun _ _ => some [1]) (fun _ _ => some [[1], [2]])
        [⟨1, some "A", none, none, none, some "x"⟩,
         ⟨2, none, none, none, none, none⟩]).stats.processed +
      (runProcess jsonLoadsModel 8000 3 2 false true (fun _ => true)
        (fun _ _ => some [1]) (fun _ _ => some [[1], [2]])
        [⟨1, some "A", none, none, none, some "x"⟩,
         ⟨2, none, none, none, none, none⟩]).stats.errors +
      (runProcess jsonLoadsModel 8000 3 2 false true (fun _ => true)
        (fun _ _ => some [1]) (fun _ _ => some [[1], [2]])
        [⟨1, some "A", none, none, none, some "x"⟩,
         ⟨2, none, none, none, none, none⟩]).stats.skipped_empty +
      (runProcess jsonLoadsModel 8000 3 2 false true (fun _ => true)
        (fun _ _ => some [1]) (fun _ _ => some [[1], [2]])
        [⟨1, some "A", none, none, none, some "x"⟩,
         ⟨2, none, none, none, none, none⟩]).stats.skipped_too_long) := by
  refine ⟨by decide, ?_⟩
  exact C10_counter_partition jsonLoadsModel 8000 3 2 false true (fun _ => true)
    (fun _ _ => some [1]) (fun _ _ => some [[1], [2]])
    [⟨1, some "A", none, none, none, some "x"⟩, ⟨2, none, none, none, none, none⟩]
    (by decide) (by decide)

end VoiceNotes
